import Mathlib

/-!
# Verification of the mobile-agent loop controller (`src/agent.py`)

Shallow embedding of the agent's core: the fingerprint normalizer
(`re.sub` of the bounds attribute and of digits), the action dispatcher
(`perform_tap`, `perform_go_back`, `perform_scroll`), and the main
perceive-decide-act loop of `main`, with the external world (device,
screenshots, UI XML dump, decision oracle) supplied as explicit inputs.

Device primitives are modelled as emitted events rather than real I/O,
so theorems can speak about which device calls an operation makes.
-/

namespace Agent

/-- A device-visible or timing-visible effect of the agent, in order of
occurrence.  `tapCall`/`backCall`/`swipeCall`/`sizeQuery` are the adb shell
commands issued by the interaction module; `screenshotCall`/`xmlCall` are
the two perception acquisitions of each loop iteration; `oracleCall` is the
`analyze_screen` invocation; `sleepCall` is `time.sleep(2)`. -/
inductive Event where
  | screenshotCall : Event
  | xmlCall        : Event
  | oracleCall     : Event
  | sleepCall      : Event
  | sizeQuery      : Event
  | tapCall (x y : Int) : Event
  | backCall       : Event
  | swipeCall (sx sy ex ey dur : Nat) : Event
  deriving DecidableEq, Repr

/-- Events that touch the device's input state (a dispatched gesture or key),
as opposed to perception, oracle or timing events.  `sizeQuery` is the
`wm size` shell read issued by `get_screen_size`. -/
def Event.isDeviceCall : Event → Bool
  | .sizeQuery => true
  | .tapCall _ _ => true
  | .backCall => true
  | .swipeCall _ _ _ _ _ => true
  | _ => false

/-- The `wm size` query and the gestures, excluding the read-only size query:
the calls that actually act on the device. -/
def Event.isGesture : Event → Bool
  | .tapCall _ _ => true
  | .backCall => true
  | .swipeCall _ _ _ _ _ => true
  | _ => false

/-- The device model: `get_screen_size` parses `wm size` output with a regex;
`size = none` models a missing/unparseable answer, `some (w, h)` a parsed
physical size.  Shell gesture commands are modelled as always reaching the
device (their failure paths are not exercised by any claim). -/
structure Device where
  size : Option (Nat × Nat)

/-- Python truthiness of an optional string (`None` and `""` are falsy),
as used by `if not screenshot_path or not xml_content` and
`if not analysis_string` / `if not bounds_str`. -/
def pyTruthy : Option String → Bool
  | none => false
  | some s => !(s == "")

/-! ## Character-list string primitives

Python's `str.replace` and `str.split` and the two `re.sub` calls are
modelled as scanners over `List Char`, written with structural recursion on
an explicit fuel (initialised to the list length) so that every definition
evaluates by kernel reduction. -/

/-- Match a literal character sequence as a prefix; on success return the
rest of the input. -/
def matchLit : List Char → List Char → Option (List Char)
  | [], l => some l
  | _ :: _, [] => none
  | c :: cs, a :: l => if a = c then matchLit cs l else none

/-- One fuelled step of left-to-right, non-overlapping literal replacement
(the semantics of Python `str.replace` for a nonempty pattern). -/
def replaceGo (pat rep : List Char) : Nat → List Char → List Char
  | _, [] => []
  | 0, l => l
  | fuel + 1, c :: rest =>
    match matchLit pat (c :: rest) with
    | some rest' => rep ++ replaceGo pat rep fuel rest'
    | none => c :: replaceGo pat rep fuel rest

/-- Python `s.replace(pat, rep)` for a nonempty literal pattern. -/
def replaceAll (pat rep l : List Char) : List Char :=
  replaceGo pat rep l.length l

/-- Python `s.split(",")`: split at every comma; the empty string yields a
single empty piece. -/
def splitComma : List Char → List (List Char)
  | [] => [[]]
  | ',' :: rest => [] :: splitComma rest
  | c :: rest =>
    match splitComma rest with
    | g :: gs => (c :: g) :: gs
    | [] => [[c]]

/-! ## Python `int()` on a string (the subset relevant to bounds parsing) -/

/-- Digit-run validity for Python `int()`: nonempty, made of ASCII digits with
single underscores allowed strictly between digits. -/
def validIntDigits : List Char → Bool
  | [] => false
  | [c] => c.isDigit
  | c :: '_' :: rest => c.isDigit && validIntDigits rest
  | c :: c2 :: rest => c.isDigit && validIntDigits (c2 :: rest)

/-- Numeric value of a digit-and-underscore run. -/
def digitsVal (l : List Char) : Nat :=
  l.foldl (fun acc c => if c.isDigit then acc * 10 + (c.toNat - 48) else acc) 0

/-- Model of Python `int(s)`: optional surrounding ASCII whitespace, optional
sign, then a digit run (underscore separators allowed); anything else raises
`ValueError`, modelled as `none`.  (Python also accepts non-ASCII decimal
digits; UI bounds strings are ASCII, so that case is not modelled.) -/
def pyInt : String → Option Int := fun s =>
  let l := (s.toList.dropWhile Char.isWhitespace).reverse.dropWhile Char.isWhitespace |>.reverse
  match l with
  | '-' :: rest => if validIntDigits rest then some (-(digitsVal rest : Int)) else none
  | '+' :: rest => if validIntDigits rest then some ((digitsVal rest : Int)) else none
  | _ => if validIntDigits l then some ((digitsVal l : Int)) else none

/-! ## Fingerprint normalizer (agent.py lines 352-353)

`normalized_xml = re.sub(r'bounds="\[\d+,\d+\]\[\d+,\d+\]"', '', xml_content)`
`normalized_xml = re.sub(r'\d', '', normalized_xml)`

The first substitution removes every leftmost non-overlapping occurrence of
the bounds attribute; it is modelled by a left-to-right scanner that at each
position tries the full pattern (the pattern's `\d+` groups are delimited by
non-digit literals, so greedy maximal-run matching is exact).  The second
removes every digit character.  (`\d` on a Python `str` also matches
non-ASCII decimal digits; only ASCII digits are modelled.) -/

/-- The literal part of the bounds pattern up to the first coordinate:
`bounds="[`. -/
def boundsPat : List Char := ['b', 'o', 'u', 'n', 'd', 's', '=', '"', '[']

/-- Match one-or-more digits greedily (the `\d+` of the pattern, which is
always followed by a non-digit literal, so the maximal run is the unique
possible match). -/
def matchDigits1 : List Char → Option (List Char)
  | [] => none
  | c :: rest => if c.isDigit then some (rest.dropWhile Char.isDigit) else none

/-- Try to match `bounds="[\d+,\d+\]\[\d+,\d+\]"` as a prefix, returning the
rest of the input on success. -/
def matchBounds (l : List Char) : Option (List Char) :=
  (matchLit boundsPat l).bind fun l =>
  (matchDigits1 l).bind fun l =>
  (matchLit [','] l).bind fun l =>
  (matchDigits1 l).bind fun l =>
  (matchLit [']', '['] l).bind fun l =>
  (matchDigits1 l).bind fun l =>
  (matchLit [','] l).bind fun l =>
  (matchDigits1 l).bind fun l =>
  matchLit [']', '"'] l

/-- Fuelled scanner for the first `re.sub`: at each position remove a
leftmost match of the bounds pattern, else keep the character. -/
def stripBoundsGo : Nat → List Char → List Char
  | _, [] => []
  | 0, l => l
  | fuel + 1, c :: rest =>
    match matchBounds (c :: rest) with
    | some rest' => stripBoundsGo fuel rest'
    | none => c :: stripBoundsGo fuel rest

/-- The first substitution, `re.sub` of the bounds pattern with `''`. -/
def stripBoundsAttrs (l : List Char) : List Char :=
  stripBoundsGo l.length l

/-- The second substitution, `re.sub` of every digit with `''`. -/
def eraseDigits (l : List Char) : List Char :=
  l.filter (fun c => !c.isDigit)

/-- The fingerprint normalizer of lines 352-353, as one pure function of the
raw screen description. -/
def normalize (s : String) : String :=
  String.mk (eraseDigits (stripBoundsAttrs s.toList))

/-! ### Digit-skeleton tokens

`Tok` views a string as its non-digit characters with every maximal run of
digits collapsed to a single `num` marker.  Two raw descriptions are
"identical except for the digits inside bounds attributes and any other
digit characters" exactly when they have the same token list: same non-digit
text in the same order, with (nonempty) digit runs at the same places. -/

inductive Tok where
  | ch (c : Char)
  | num
  deriving DecidableEq, Repr

/-- Token list of a string: non-digit characters kept, each maximal digit
run collapsed to one `Tok.num`. -/
def tokens : List Char → List Tok
  | [] => []
  | c :: rest =>
    if c.isDigit then
      match tokens rest with
      | .num :: ts => .num :: ts
      | ts => .num :: ts
    else .ch c :: tokens rest

/-! ## `perform_tap` (agent.py lines 163-195) -/

/-- The coordinate extraction of `perform_tap`:
`bounds_str.replace("][", ",").replace("[", "").replace("]", "").split(",")`,
each piece through `int()`, then unpacking into exactly four values.
Any failure (a non-integer piece, or a piece count other than four) raises in
Python and is caught by `perform_tap`'s handler; here it is `none`. -/
def parseBoundsCoords (s : String) : Option (Int × Int × Int × Int) :=
  let t := replaceAll [']', '['] [','] s.toList
  let t := replaceAll ['['] [] t
  let t := replaceAll [']'] [] t
  match (splitComma t).mapM (fun p => pyInt (String.mk p)) with
  | some [a, b, c, d] => some (a, b, c, d)
  | _ => none

/-- Model of `perform_tap(device, bounds_str, xml_content)`.  Returns the outcome
string and the device events issued.  `describe` stands for the
element-description lookup of lines 173-187 (an `ElementTree` scan of the
XML for a node whose `bounds` attribute equals the literal, falling back to
a generic description); no claim depends on its result, so it is a
parameter.  The Python failure message ends with the formatted exception;
the model keeps the fixed prefix up to the bounds literal. -/
def perform_tap (describe : String → String) (bounds_str : Option String) :
    String × List Event :=
  if pyTruthy bounds_str = false then
    ("Failed to tap: bounds string was empty.", [])
  else
    let bs := bounds_str.getD ""
    match parseBoundsCoords bs with
    | some (x1, y1, x2, y2) =>
      let tap_x := (x1 + x2).fdiv 2
      let tap_y := (y1 + y2).fdiv 2
      let d := describe bs
      ("Tapped on " ++ d, [Event.tapCall tap_x tap_y])
    | none =>
      ("Failed to tap due to invalid bounds: " ++ bs ++ ". Error: ValueError", [])

/-! ## `perform_go_back` (lines 197-206) and `perform_scroll` (lines 208-232) -/

/-- Model of `perform_go_back(device)`: key event 4, fixed confirmation string. -/
def perform_go_back : String × List Event :=
  ("Executed 'go back'", [Event.backCall])

/-- Model of `perform_scroll(device, direction)`.  It first calls
`get_screen_size(device)` — a `wm size` shell read, recorded as
`Event.sizeQuery` — and fails if width or height is falsy (`None` or `0`).
Only `"down"` and `"up"` issue a swipe; any other direction returns the
unsupported-direction string.  Python computes `int(height * 0.8)` with
float multiplication; the model uses exact `h * 8 / 10` (and `h * 2 / 10`),
which no claim's statement depends on. -/
def perform_scroll (dev : Device) (direction : String) : String × List Event :=
  match dev.size with
  | none => ("Failed to get screen size for scrolling.", [Event.sizeQuery])
  | some (w, h) =>
    if w = 0 || h = 0 then
      ("Failed to get screen size for scrolling.", [Event.sizeQuery])
    else if direction == "down" then
      ("Scrolled down",
        [Event.sizeQuery, Event.swipeCall (w / 2) (h * 8 / 10) (w / 2) (h * 2 / 10) 500])
    else if direction == "up" then
      ("Scrolled up",
        [Event.sizeQuery, Event.swipeCall (w / 2) (h * 2 / 10) (w / 2) (h * 8 / 10) 500])
    else
      ("Scroll direction '" ++ direction ++ "' not supported.", [Event.sizeQuery])

/-! ## The decoded oracle response (the JSON dict of `json.loads`)

`main` only ever reads the decoded dict through `.get`, so the response is
modelled at the field level, every field optional (a missing key yields
`None`/`{}`).  `OracleResult` is the outcome of lines 356-367: `unavailable`
when `analyze_screen` returned a falsy `analysis_string`, `malformed` when
`json.loads` raised `JSONDecodeError`, `ok` when a JSON object was decoded. -/

/-- The `action` sub-object: `{"type": ..., "bounds": ..., "direction": ...}`. -/
structure ActionObj where
  type      : Option String := none
  bounds    : Option String := none
  direction : Option String := none
  deriving DecidableEq, Repr

/-- The decoded analysis JSON object. -/
structure AnalysisData where
  reflection : Option String := none
  thought    : Option String := none
  status     : Option String := none
  action     : Option ActionObj := none
  deriving DecidableEq, Repr

/-- Outcome of the think phase of one iteration. -/
inductive OracleResult where
  | unavailable : OracleResult
  | malformed   : OracleResult
  | ok (d : AnalysisData) : OracleResult
  deriving DecidableEq, Repr

/-- The external inputs consumed by one loop iteration: the screenshot path
returned by `take_screenshot` (`none` on failure), the UI XML text returned
by `get_ui_xml` (`none` on failure), and the decoded oracle response. -/
structure StepEnv where
  screenshot : Option String
  xml        : Option String
  oracle     : OracleResult
  deriving DecidableEq, Repr

/-! ## Loop state: histories and run log (lines 322-325, 386-399) -/

/-- One entry of `run_log` (lines 392-398). -/
structure StepRecord where
  step            : Nat
  screenshot_path : String
  reflection      : String
  thought         : String
  action          : String
  deriving DecidableEq, Repr

/-- The loop's mutable state: `action_history` (a list), `screen_history`
(a dict from normalized XML to outcome lists, kept in insertion order), and
`run_log`. -/
structure LoopState where
  action_history : List String
  screen_history : List (String × List String)
  run_log        : List StepRecord
  deriving DecidableEq, Repr

/-- Lookup `screen_history.get(fp, [])`. -/
def shLookup (h : List (String × List String)) (fp : String) : List String :=
  match h.find? (fun p => p.1 == fp) with
  | some p => p.2
  | none => []

/-- Lines 388-390: create the key's list if absent, then append the outcome. -/
def shRecord (h : List (String × List String)) (fp out : String) :
    List (String × List String) :=
  if (h.find? (fun p => p.1 == fp)).isSome then
    h.map (fun p => if p.1 == fp then (p.1, p.2 ++ [out]) else p)
  else
    h ++ [(fp, [out])]

/-! ## Action dispatch inside the loop body (lines 374-384) -/

/-- Lines 374-384: `action_status` starts as `"No action taken."` and is
replaced by a dispatcher result only when `status == "IN_PROGRESS"` and the
action type is one of `TAP`/`GO_BACK`/`SCROLL`.  Returns the outcome string
and the device events issued. -/
def dispatchAction (dev : Device) (describe : String → String) (d : AnalysisData) :
    String × List Event :=
  let action := d.action.getD {}
  if d.status == some "IN_PROGRESS" then
    match action.type with
    | some t =>
      if t == "TAP" then perform_tap describe action.bounds
      else if t == "GO_BACK" then perform_go_back
      else if t == "SCROLL" then perform_scroll dev (action.direction.getD "down")
      else ("No action taken.", [])
    | none => ("No action taken.", [])
  else ("No action taken.", [])

/-! ## One loop iteration (lines 341-407) -/

/-- How one iteration of the `for` body ends: `perceptionFail` is the
`break` of line 349 (state untouched), `skip` is a `continue` of lines
358-367 (state untouched), `completed` is the `break` of lines 402-405, and
`normal` falls through to the next iteration. -/
inductive IterResult where
  | perceptionFail : IterResult
  | skip : IterResult
  | completed (st : LoopState) : IterResult
  | normal (st : LoopState) : IterResult
  deriving DecidableEq, Repr

/-- The body of the `for step in range(max_steps)` loop for one iteration,
given that iteration's external inputs.  Returns the events of the
iteration in order and how it ended.  `step` is the zero-based loop index. -/
def iterStep (dev : Device) (describe : String → String) (e : StepEnv)
    (st : LoopState) (step : Nat) : List Event × IterResult :=
  if pyTruthy e.screenshot && pyTruthy e.xml then
    let sp := e.screenshot.getD ""
    let xc := e.xml.getD ""
    let fp := normalize xc
    match e.oracle with
    | .unavailable =>
      ([Event.screenshotCall, Event.xmlCall, Event.oracleCall, Event.sleepCall], .skip)
    | .malformed =>
      ([Event.screenshotCall, Event.xmlCall, Event.oracleCall], .skip)
    | .ok d =>
      let da := dispatchAction dev describe d
      let st' : LoopState :=
        { action_history := st.action_history ++ [da.1]
          screen_history := shRecord st.screen_history fp da.1
          run_log := st.run_log ++
            [{ step := step + 1, screenshot_path := sp,
               reflection := d.reflection.getD "N/A",
               thought := d.thought.getD "N/A",
               action := da.1 }] }
      if d.status == some "COMPLETE" then
        ([Event.screenshotCall, Event.xmlCall, Event.oracleCall] ++ da.2, .completed st')
      else
        ([Event.screenshotCall, Event.xmlCall, Event.oracleCall] ++ da.2 ++ [Event.sleepCall],
          .normal st')
  else
    ([Event.screenshotCall, Event.xmlCall], .perceptionFail)

/-! ## The driver (lines 339-419) -/

/-- What a finished loop reports back: all events in order, the final loop
state, and `final_status` exactly as the Python string variable. -/
structure RunOut where
  events : List Event
  state  : LoopState
  status : String
  deriving DecidableEq, Repr

/-- The `for`/`else` of lines 341-411, from loop index `i` with `fuel`
iterations of budget left.  Exhausting the range without `break` runs the
`else` clause (`final_status = "Failed (Max steps reached)"`); a perception
`break` leaves `final_status` at its initial `"Unknown"`; a completion
`break` has set it to `"Successful"`. -/
def runAux (dev : Device) (describe : String → String) (env : Nat → StepEnv) :
    Nat → Nat → LoopState → RunOut
  | 0, _, st => ⟨[], st, "Failed (Max steps reached)"⟩
  | fuel + 1, i, st =>
    match iterStep dev describe (env i) st i with
    | (evs, .perceptionFail) => ⟨evs, st, "Unknown"⟩
    | (evs, .skip) =>
      let out := runAux dev describe env fuel (i + 1) st
      ⟨evs ++ out.events, out.state, out.status⟩
    | (evs, .completed st') => ⟨evs, st', "Successful"⟩
    | (evs, .normal st') =>
      let out := runAux dev describe env fuel (i + 1) st'
      ⟨evs ++ out.events, out.state, out.status⟩

/-- A whole run: events, final state and status, and the report invocation
of lines 417-419 (`generate_pdf_report(mission, run_log, final_status)`
happens exactly when `run_log` is nonempty; its arguments are recorded). -/
structure RunResult where
  events : List Event
  state  : LoopState
  status : String
  report : Option (List StepRecord × String)
  deriving DecidableEq, Repr

/-- The agent loop of `main` with budget `maxSteps`, starting from empty
histories and an empty run log, followed by the `finally` block's
conditional report generation. -/
def runAgent (dev : Device) (describe : String → String) (env : Nat → StepEnv)
    (maxSteps : Nat) : RunResult :=
  let out := runAux dev describe env maxSteps 0 ⟨[], [], []⟩
  { events := out.events
    state := out.state
    status := out.status
    report := if out.state.run_log.isEmpty then none
              else some (out.state.run_log, out.status) }

/-! ## Spec-level final statuses

The specification names the terminal states `Successful`, `FailedMaxSteps`,
`FailedPerception`, `FailedError(detail)`.  The code represents them by the
strings assigned to `final_status`: `"Successful"`,
`"Failed (Max steps reached)"`, and `f"Failed (Error: ...)"`; the
perception-failure `break` of line 349 leaves the initial label
`"Unknown"`, which is therefore the code's representation of the spec's
`FailedPerception` terminal state.  `SpecStatus`/`statusAbs` record this
correspondence (they follow the spec's words, not the source). -/

inductive SpecStatus where
  | Successful | FailedMaxSteps | FailedPerception | FailedError
  deriving DecidableEq, Repr

/-- Map the code's `final_status` strings to the spec's terminal states. -/
def statusAbs (s : String) : SpecStatus :=
  if s == "Successful" then .Successful
  else if s == "Failed (Max steps reached)" then .FailedMaxSteps
  else if s == "Unknown" then .FailedPerception
  else .FailedError

/-! ## Predicates used by the loop theorems, and witness fixtures -/

/-- Perception succeeded: both `take_screenshot` and `get_ui_xml` returned
truthy values (the check of line 347). -/
def perceptionOkB (e : StepEnv) : Bool :=
  pyTruthy e.screenshot && pyTruthy e.xml

/-- A fully successful step whose decoded decision keeps the mission in
progress. -/
def goodInProgressB (e : StepEnv) : Bool :=
  perceptionOkB e &&
    (match e.oracle with
     | .ok d => d.status == some "IN_PROGRESS"
     | _ => false)

/-- A successful perception together with a decoded decision whose status
is `"COMPLETE"`. -/
def completeStepB (e : StepEnv) : Bool :=
  perceptionOkB e &&
    (match e.oracle with
     | .ok d => d.status == some "COMPLETE"
     | _ => false)

/-- Concrete run for the C1 and C5 witnesses: a device, a trivial describe
function, and environments built from a canonical good step. -/
def devW : Device := ⟨some (1080, 1920)⟩

/-- A canonical fully-successful in-progress step. -/
def goodEnvW : StepEnv :=
  ⟨some "s.png", some "<node bounds=\"[1,2][3,4]\" text=\"ok\"/>",
    .ok { reflection := some "r", thought := some "t",
          status := some "IN_PROGRESS",
          action := some { type := some "GO_BACK" } }⟩

/-- Environment where perception fails from step 3 on (0-based index 2). -/
def envPercW : Nat → StepEnv := fun i =>
  if i < 2 then goodEnvW else ⟨none, some "<x/>", .ok { status := some "IN_PROGRESS" }⟩

/-- Environment whose step 0 is a malformed oracle response. -/
def envMalW : Nat → StepEnv := fun _ => ⟨some "s.png", some "<x/>", .malformed⟩

/-- Environment whose step 0 decodes with an unrecognized status value. -/
def envOddW : Nat → StepEnv := fun _ =>
  ⟨some "s.png", some "<x/>", .ok { status := some "DONE" }⟩

/-- Environment that is in progress on step 1 and COMPLETE on step 2. -/
def envComplW : Nat → StepEnv := fun i =>
  if i < 1 then goodEnvW
  else ⟨some "s.png", some "<x/>", .ok { status := some "COMPLETE" }⟩

/-- A scanner step respects token equality: on token-equal inputs it either
fails on both or succeeds on both with token-equal remainders. -/
def TEq (f : List Char → Option (List Char)) : Prop :=
  ∀ l1 l2, tokens l1 = tokens l2 →
    (f l1 = none ∧ f l2 = none) ∨
    ∃ r1 r2, f l1 = some r1 ∧ f l2 = some r2 ∧ tokens r1 = tokens r2

/-! ## Dispatcher event lemmas -/

theorem perform_tap_events_device (describe : String → String) (b : Option String) :
    ∀ ev ∈ (perform_tap describe b).2, ev.isDeviceCall = true := by
  rcases b with _ | bs
  · simp [perform_tap, pyTruthy]
  · by_cases hbs : bs = ""
    · simp [perform_tap, pyTruthy, hbs]
    · rcases hp : parseBoundsCoords bs with _ | ⟨x1, y1, x2, y2⟩ <;>
        simp [perform_tap, pyTruthy, hbs, hp, Event.isDeviceCall]

theorem perform_scroll_events_device (dev : Device) (dir : String) :
    ∀ ev ∈ (perform_scroll dev dir).2, ev.isDeviceCall = true := by
  rcases dev with ⟨_ | ⟨w, h⟩⟩
  · simp [perform_scroll, Event.isDeviceCall]
  · by_cases h0 : w = 0 || h = 0 <;>
      by_cases hd : dir == "down" <;>
      by_cases hu : dir == "up" <;>
      simp_all [perform_scroll, Event.isDeviceCall]

theorem dispatch_events_device (dev : Device) (describe : String → String)
    (d : AnalysisData) :
    ∀ ev ∈ (dispatchAction dev describe d).2, ev.isDeviceCall = true := by
  unfold dispatchAction
  by_cases hs : d.status == some "IN_PROGRESS"
  · rcases ht : (d.action.getD {}).type with _ | t
    · simp [hs, ht]
    · by_cases h1 : t == "TAP"
      · simpa [hs, ht, h1] using perform_tap_events_device describe (d.action.getD {}).bounds
      · by_cases h2 : t == "GO_BACK"
        · simp [hs, ht, h1, h2, perform_go_back, Event.isDeviceCall]
        · by_cases h3 : t == "SCROLL"
          · simpa [hs, ht, h1, h2, h3] using
              perform_scroll_events_device dev ((d.action.getD {}).direction.getD "down")
          · simp [hs, ht, h1, h2, h3]
  · simp [hs]

theorem count_eq_zero_of_device {L : List Event}
    (h : ∀ ev ∈ L, ev.isDeviceCall = true) (x : Event) (hx : x.isDeviceCall = false) :
    L.count x = 0 := by
  rw [List.count_eq_zero]
  intro hm
  rw [h x hm] at hx
  cases hx

theorem sleep_not_mem_of_device {L : List Event}
    (h : ∀ ev ∈ L, ev.isDeviceCall = true) : Event.sleepCall ∉ L := by
  intro hm
  have := h _ hm
  simp [Event.isDeviceCall] at this

/-! ## Claim C2: unsupported scroll directions -/

/-- C2, counterexample.  `Scroll{direction: "left"}` does return the
unsupported-direction string and issues no swipe, but it does make a device
call: `perform_scroll` first runs `get_screen_size`, i.e. a `wm size` shell
read, so the claim's "makes no device call at all" is false. -/
theorem scroll_left_device_call_cex :
    (perform_scroll ⟨some (1080, 1920)⟩ "left").1 =
        "Scroll direction 'left' not supported." ∧
      (perform_scroll ⟨some (1080, 1920)⟩ "left").2 ≠ [] ∧
      (perform_scroll ⟨some (1080, 1920)⟩ "left").2 = [Event.sizeQuery] := by
  decide

/-- C2, amended.  For every direction other than `"down"`/`"up"`, the
dispatcher issues no swipe (or any other gesture) — the only device call it
makes is the read-only screen-size query — and, provided that query yields
a usable size, it returns the explicit "direction not supported" outcome
string.  (If the size query fails, the outcome is the screen-size failure
string instead.) -/
theorem scroll_unsupported_direction (dev : Device) (dir : String)
    (hd : dir ≠ "down") (hu : dir ≠ "up") :
    (∀ ev ∈ (perform_scroll dev dir).2, ev = Event.sizeQuery) ∧
    (∀ w h : Nat, dev.size = some (w, h) → w ≠ 0 → h ≠ 0 →
      (perform_scroll dev dir).1 = "Scroll direction '" ++ dir ++ "' not supported.") := by
  have hd' : (dir == "down") = false := by simp [hd]
  have hu' : (dir == "up") = false := by simp [hu]
  rcases dev with ⟨_ | ⟨w, h⟩⟩
  · refine ⟨by simp [perform_scroll], ?_⟩
    intro w h hsz
    cases hsz
  · refine ⟨?_, ?_⟩
    · by_cases h0 : w = 0 || h = 0 <;> simp_all [perform_scroll]
    · intro w' h' hsz hw hh
      cases hsz
      simp [perform_scroll, hd', hu', hw, hh]

/-- C2 witness: the amended theorem applied to direction `"left"` on a
1080x1920 device. -/
theorem scroll_unsupported_direction_witness :
    (∀ ev ∈ (perform_scroll ⟨some (1080, 1920)⟩ "left").2, ev = Event.sizeQuery) ∧
      (perform_scroll ⟨some (1080, 1920)⟩ "left").1 =
        "Scroll direction 'left' not supported." := by
  have h := scroll_unsupported_direction ⟨some (1080, 1920)⟩ "left"
    (by decide) (by decide)
  exact ⟨h.1, h.2 1080 1920 rfl (by decide) (by decide)⟩

/-! ## Claim C7: tap midpoint and bounds-parse failure -/

theorem parseBoundsCoords_empty : parseBoundsCoords "" = none := by decide

/-- C7.  If the bounds literal parses as four integers, `perform_tap` taps
exactly the integer midpoint (Python floor division `//`, i.e. `Int.fdiv`)
and reports the tapped element; if parsing fails, no tap device call is
made and one of the two explicit failure strings is returned. -/
theorem tap_midpoint_and_parse_failure (describe : String → String) (bs : String) :
    (∀ x1 y1 x2 y2 : Int, parseBoundsCoords bs = some (x1, y1, x2, y2) →
      perform_tap describe (some bs) =
        ("Tapped on " ++ describe bs,
          [Event.tapCall ((x1 + x2).fdiv 2) ((y1 + y2).fdiv 2)])) ∧
    (parseBoundsCoords bs = none →
      (perform_tap describe (some bs)).2 = [] ∧
      ((perform_tap describe (some bs)).1 = "Failed to tap: bounds string was empty." ∨
        (perform_tap describe (some bs)).1 =
          "Failed to tap due to invalid bounds: " ++ bs ++ ". Error: ValueError")) := by
  constructor
  · intro x1 y1 x2 y2 hp
    have hbs : bs ≠ "" := by
      rintro rfl
      rw [parseBoundsCoords_empty] at hp
      cases hp
    simp [perform_tap, pyTruthy, hbs, hp]
  · intro hp
    by_cases hbs : bs = ""
    · subst hbs
      exact ⟨by simp [perform_tap, pyTruthy], Or.inl (by simp [perform_tap, pyTruthy])⟩
    · simp [perform_tap, pyTruthy, hbs, hp]

/-- C7 witness: the spec's concrete example, bounds literal
`[10,20][30,40]` taps at `(20, 30)`. -/
theorem tap_midpoint_witness :
    perform_tap (fun b => "element with bounds " ++ b) (some "[10,20][30,40]") =
      ("Tapped on element with bounds [10,20][30,40]", [Event.tapCall 20 30]) :=
  ((tap_midpoint_and_parse_failure (fun b => "element with bounds " ++ b)
      "[10,20][30,40]").1 10 20 30 40 (by decide)).trans (by decide)

/-! ## Claim C10: SCROLL with a missing direction defaults to "down" -/

/-- C10.  When the decoded action has `type = "SCROLL"` and no `direction`
key, the loop body calls `perform_scroll` with the `.get` default
`"down"`; with a usable screen size this performs the downward swipe and
returns `"Scrolled down"` (not an unsupported-direction or failure
outcome). -/
theorem scroll_direction_defaults_down (dev : Device) (describe : String → String)
    (d : AnalysisData) (a : ActionObj)
    (hs : d.status = some "IN_PROGRESS") (ha : d.action = some a)
    (ht : a.type = some "SCROLL") (hdir : a.direction = none) :
    dispatchAction dev describe d = perform_scroll dev "down" ∧
    (∀ w h : Nat, dev.size = some (w, h) → w ≠ 0 → h ≠ 0 →
      dispatchAction dev describe d =
        ("Scrolled down",
          [Event.sizeQuery,
            Event.swipeCall (w / 2) (h * 8 / 10) (w / 2) (h * 2 / 10) 500])) := by
  have h1 : dispatchAction dev describe d = perform_scroll dev "down" := by
    simp [dispatchAction, hs, ha, ht, hdir]
  refine ⟨h1, ?_⟩
  intro w h hsz hw hh
  rw [h1]
  simp [perform_scroll, hsz, hw, hh]

/-- C10 witness: a `SCROLL` decision without a direction on a 1080x1920
device swipes downward. -/
theorem scroll_direction_defaults_down_witness :
    dispatchAction ⟨some (1080, 1920)⟩ (fun b => b)
        { status := some "IN_PROGRESS", action := some { type := some "SCROLL" } } =
      ("Scrolled down", [Event.sizeQuery, Event.swipeCall 540 1536 540 384 500]) :=
  ((scroll_direction_defaults_down ⟨some (1080, 1920)⟩ (fun b => b)
      { status := some "IN_PROGRESS", action := some { type := some "SCROLL" } }
      { type := some "SCROLL" } rfl rfl rfl rfl).2
    1080 1920 rfl (by decide) (by decide)).trans (by decide)

/-! ## Claim C3: the inter-step delay -/

/-- C3, counterexample.  A step whose oracle response fails JSON decoding
(`OracleMalformed`) hits the bare `continue` of line 367, which — unlike
the unavailable-response path of lines 358-361 — does not sleep: a one-step
run whose only iteration is a malformed response contains no sleep event at
all, refuting "after every Oracle failure the fixed inter-step delay is
applied". -/
theorem interstep_delay_malformed_cex :
    (runAgent ⟨some (1080, 1920)⟩ (fun b => b)
        (fun _ => ⟨some "s.png", some "<x/>", OracleResult.malformed⟩) 1).events =
      [Event.screenshotCall, Event.xmlCall, Event.oracleCall] ∧
    Event.sleepCall ∉ (runAgent ⟨some (1080, 1920)⟩ (fun b => b)
        (fun _ => ⟨some "s.png", some "<x/>", OracleResult.malformed⟩) 1).events := by
  decide

/-- C3, amended.  An iteration sleeps exactly when perception succeeded and
either the oracle response was unavailable (falsy `analysis_string`,
lines 358-361) or a decoded decision was processed whose status is not
`"COMPLETE"` (line 407).  In particular no delay after a malformed
(JSON-undecodable) response, and no delay once the loop has decided to
terminate (perception-failure `break` or `COMPLETE` `break`). -/
theorem interstep_delay_policy (dev : Device) (describe : String → String)
    (e : StepEnv) (st : LoopState) (i : Nat) :
    Event.sleepCall ∈ (iterStep dev describe e st i).1 ↔
      (pyTruthy e.screenshot = true ∧ pyTruthy e.xml = true ∧
        (e.oracle = OracleResult.unavailable ∨
          ∃ d, e.oracle = OracleResult.ok d ∧ d.status ≠ some "COMPLETE")) := by
  by_cases hp : (pyTruthy e.screenshot && pyTruthy e.xml) = true
  · rw [Bool.and_eq_true] at hp
    rcases ho : e.oracle with _ | _ | d
    · simp [iterStep, hp.1, hp.2, ho]
    · simp [iterStep, hp.1, hp.2, ho]
    · have hev := dispatch_events_device dev describe d
      rcases hda : dispatchAction dev describe d with ⟨outc, acts⟩
      rw [hda] at hev
      have hna : Event.sleepCall ∉ acts := sleep_not_mem_of_device hev
      by_cases hc : d.status = some "COMPLETE"
      · simp [iterStep, hp.1, hp.2, ho, hda, hc, hna]
      · have hc' : (d.status == some "COMPLETE") = false := by simp [hc]
        simp [iterStep, hp.1, hp.2, ho, hda, hc', hc]
  · have hp' : (pyTruthy e.screenshot && pyTruthy e.xml) = false :=
      Bool.not_eq_true _ ▸ eq_false_of_ne_true hp
    constructor
    · intro hm
      simp [iterStep, hp'] at hm
    · rintro ⟨h1, h2, _⟩
      rw [h1, h2] at hp'
      cases hp'

/-- C3 witness: the amended delay policy evaluated at the malformed-step
environment. -/
theorem interstep_delay_policy_witness :
    Event.sleepCall ∈ (iterStep devW (fun b => b) (envMalW 0) ⟨[], [], []⟩ 0).1 ↔
      (pyTruthy (envMalW 0).screenshot = true ∧ pyTruthy (envMalW 0).xml = true ∧
        ((envMalW 0).oracle = OracleResult.unavailable ∨
          ∃ d, (envMalW 0).oracle = OracleResult.ok d ∧ d.status ≠ some "COMPLETE")) :=
  interstep_delay_policy devW (fun b => b) (envMalW 0) ⟨[], [], []⟩ 0

/-! ## Loop-level predicates and iteration lemmas -/

theorem iterStep_perception_fail (dev : Device) (describe : String → String)
    (e : StepEnv) (st : LoopState) (i : Nat) (h : perceptionOkB e = false) :
    iterStep dev describe e st i =
      ([Event.screenshotCall, Event.xmlCall], IterResult.perceptionFail) := by
  unfold perceptionOkB at h
  simp [iterStep, h]

theorem iterStep_skip (dev : Device) (describe : String → String)
    (e : StepEnv) (st : LoopState) (i : Nat)
    (hp : perceptionOkB e = true)
    (ho : e.oracle = OracleResult.unavailable ∨ e.oracle = OracleResult.malformed) :
    ∃ evs, iterStep dev describe e st i = (evs, IterResult.skip) ∧
      evs.count Event.oracleCall = 1 ∧ evs.count Event.screenshotCall = 1 := by
  unfold perceptionOkB at hp
  rw [Bool.and_eq_true] at hp
  rcases ho with ho | ho
  · exact ⟨[Event.screenshotCall, Event.xmlCall, Event.oracleCall, Event.sleepCall],
      by simp [iterStep, hp.1, hp.2, ho], by decide, by decide⟩
  · exact ⟨[Event.screenshotCall, Event.xmlCall, Event.oracleCall],
      by simp [iterStep, hp.1, hp.2, ho], by decide, by decide⟩

theorem iterStep_good (dev : Device) (describe : String → String)
    (e : StepEnv) (st : LoopState) (i : Nat) (h : goodInProgressB e = true) :
    ∃ evs st',
      iterStep dev describe e st i = (evs, IterResult.normal st') ∧
      evs.count Event.oracleCall = 1 ∧
      evs.count Event.screenshotCall = 1 ∧
      st'.action_history.length = st.action_history.length + 1 ∧
      st'.run_log.length = st.run_log.length + 1 := by
  unfold goodInProgressB perceptionOkB at h
  rcases ho : e.oracle with _ | _ | d
  · rw [ho] at h; simp at h
  · rw [ho] at h; simp at h
  · rw [ho] at h
    rw [Bool.and_eq_true, Bool.and_eq_true] at h
    obtain ⟨⟨h1, h2⟩, h3⟩ := h
    rw [beq_iff_eq] at h3
    have hc : (d.status == some "COMPLETE") = false := by
      rw [h3]; decide
    have hdev := dispatch_events_device dev describe d
    refine ⟨[Event.screenshotCall, Event.xmlCall, Event.oracleCall] ++
        (dispatchAction dev describe d).2 ++ [Event.sleepCall],
      { action_history := st.action_history ++ [(dispatchAction dev describe d).1]
        screen_history := shRecord st.screen_history (normalize (e.xml.getD ""))
          (dispatchAction dev describe d).1
        run_log := st.run_log ++
          [{ step := i + 1, screenshot_path := e.screenshot.getD "",
             reflection := d.reflection.getD "N/A",
             thought := d.thought.getD "N/A",
             action := (dispatchAction dev describe d).1 }] },
      by simp [iterStep, h1, h2, ho, hc], ?_, ?_, by simp, by simp⟩
    · rw [List.count_append, List.count_append,
        count_eq_zero_of_device hdev Event.oracleCall (by decide)]
      decide
    · rw [List.count_append, List.count_append,
        count_eq_zero_of_device hdev Event.screenshotCall (by decide)]
      decide

theorem iterStep_complete (dev : Device) (describe : String → String)
    (e : StepEnv) (st : LoopState) (i : Nat) (d : AnalysisData)
    (hp : perceptionOkB e = true) (ho : e.oracle = OracleResult.ok d)
    (hs : d.status = some "COMPLETE") :
    iterStep dev describe e st i =
      ([Event.screenshotCall, Event.xmlCall, Event.oracleCall],
        IterResult.completed
          { action_history := st.action_history ++ ["No action taken."]
            screen_history :=
              shRecord st.screen_history (normalize (e.xml.getD "")) "No action taken."
            run_log := st.run_log ++
              [{ step := i + 1, screenshot_path := e.screenshot.getD "",
                 reflection := d.reflection.getD "N/A",
                 thought := d.thought.getD "N/A",
                 action := "No action taken." }] }) := by
  have hda : dispatchAction dev describe d = ("No action taken.", []) := by
    have : (d.status == some "IN_PROGRESS") = false := by rw [hs]; decide
    simp [dispatchAction, this]
  unfold perceptionOkB at hp
  rw [Bool.and_eq_true] at hp
  simp [iterStep, hp.1, hp.2, ho, hda, hs]

theorem iterStep_screenshot_count (dev : Device) (describe : String → String)
    (e : StepEnv) (st : LoopState) (i : Nat) :
    (iterStep dev describe e st i).1.count Event.screenshotCall = 1 := by
  by_cases hp : (pyTruthy e.screenshot && pyTruthy e.xml) = true
  · rw [Bool.and_eq_true] at hp
    rcases ho : e.oracle with _ | _ | d
    · simp [iterStep, hp.1, hp.2, ho]
    · simp [iterStep, hp.1, hp.2, ho]
    · have hdev := dispatch_events_device dev describe d
      have hz := count_eq_zero_of_device hdev Event.screenshotCall (by decide)
      by_cases hc : (d.status == some "COMPLETE") = true
      · simp [iterStep, hp.1, hp.2, ho, hc, List.count_append, hz]
      · rw [Bool.not_eq_true] at hc
        simp [iterStep, hp.1, hp.2, ho, hc, List.count_append, hz]
  · have hp' : (pyTruthy e.screenshot && pyTruthy e.xml) = false :=
      Bool.not_eq_true _ ▸ eq_false_of_ne_true hp
    simp [iterStep, hp']

/-! ## Driver unfolding lemmas -/

theorem runAux_succ_normal (dev : Device) (describe : String → String)
    (env : Nat → StepEnv) (fuel i : Nat) (st : LoopState)
    (evs : List Event) (st' : LoopState)
    (h : iterStep dev describe (env i) st i = (evs, IterResult.normal st')) :
    runAux dev describe env (fuel + 1) i st =
      ⟨evs ++ (runAux dev describe env fuel (i + 1) st').events,
        (runAux dev describe env fuel (i + 1) st').state,
        (runAux dev describe env fuel (i + 1) st').status⟩ := by
  simp [runAux, h]

theorem runAux_succ_skip (dev : Device) (describe : String → String)
    (env : Nat → StepEnv) (fuel i : Nat) (st : LoopState)
    (evs : List Event)
    (h : iterStep dev describe (env i) st i = (evs, IterResult.skip)) :
    runAux dev describe env (fuel + 1) i st =
      ⟨evs ++ (runAux dev describe env fuel (i + 1) st).events,
        (runAux dev describe env fuel (i + 1) st).state,
        (runAux dev describe env fuel (i + 1) st).status⟩ := by
  simp [runAux, h]

theorem runAux_succ_perception_fail (dev : Device) (describe : String → String)
    (env : Nat → StepEnv) (fuel i : Nat) (st : LoopState)
    (evs : List Event)
    (h : iterStep dev describe (env i) st i = (evs, IterResult.perceptionFail)) :
    runAux dev describe env (fuel + 1) i st = ⟨evs, st, "Unknown"⟩ := by
  simp [runAux, h]

theorem runAux_succ_completed (dev : Device) (describe : String → String)
    (env : Nat → StepEnv) (fuel i : Nat) (st : LoopState)
    (evs : List Event) (st' : LoopState)
    (h : iterStep dev describe (env i) st i = (evs, IterResult.completed st')) :
    runAux dev describe env (fuel + 1) i st = ⟨evs, st', "Successful"⟩ := by
  simp [runAux, h]

/-- A segment of `m` consecutive fully-successful in-progress iterations:
the run decomposes into their events followed by the run from step `i + m`
on the grown state, with one oracle call and one screenshot per iteration
and histories grown by exactly `m`. -/
theorem runAux_good_seg (dev : Device) (describe : String → String)
    (env : Nat → StepEnv) :
    ∀ (m fuel i : Nat) (st : LoopState), m ≤ fuel →
    (∀ j, j < m → goodInProgressB (env (i + j)) = true) →
    ∃ evs st',
      runAux dev describe env fuel i st =
        ⟨evs ++ (runAux dev describe env (fuel - m) (i + m) st').events,
          (runAux dev describe env (fuel - m) (i + m) st').state,
          (runAux dev describe env (fuel - m) (i + m) st').status⟩ ∧
      evs.count Event.oracleCall = m ∧
      evs.count Event.screenshotCall = m ∧
      st'.action_history.length = st.action_history.length + m ∧
      st'.run_log.length = st.run_log.length + m := by
  intro m
  induction m with
  | zero =>
    intro fuel i st _ _
    exact ⟨[], st, by simp, rfl, rfl, rfl, rfl⟩
  | succ m ih =>
    intro fuel i st hm hg
    obtain ⟨f, rfl⟩ : ∃ f, fuel = f + 1 := ⟨fuel - 1, by omega⟩
    obtain ⟨evs1, st1, h1, c1, c2, l1, l2⟩ :=
      iterStep_good dev describe (env i) st i (by simpa using hg 0 (by omega))
    obtain ⟨evs2, st2, h2, c3, c4, l3, l4⟩ :=
      ih f (i + 1) st1 (by omega) (fun j hj => by
        have := hg (j + 1) (by omega)
        have e : i + (j + 1) = i + 1 + j := by omega
        rwa [e] at this)
    refine ⟨evs1 ++ evs2, st2, ?_, ?_, ?_, by omega, by omega⟩
    · have e1 : f + 1 - (m + 1) = f - m := by omega
      have e2 : i + (m + 1) = i + 1 + m := by omega
      rw [e1, e2, runAux_succ_normal dev describe env f i st evs1 st1 h1, h2]
      simp [List.append_assoc]
    · rw [List.count_append, c1, c3]; omega
    · rw [List.count_append, c2, c4]; omega

/-! ## Claim C1: perception failure on step k -/

/-- C1.  If steps `1..k-1` are fully successful in-progress steps and
perception fails on step `k` (with `k ≤ N`), the loop `break`s: the final
status is the spec's `FailedPerception` (the code's `final_status` is left
at its initial `"Unknown"` label), the run log and both histories have
exactly `k - 1` entries (no increment on the failing step), exactly `k - 1`
oracle calls ever happen, and — when `k - 1 ≥ 1` — the report is generated
from precisely those `k - 1` records. -/
theorem perception_failure_terminates (dev : Device) (describe : String → String)
    (env : Nat → StepEnv) (N k : Nat) (hk : 1 ≤ k) (hkN : k ≤ N)
    (hgood : ∀ j, j < k - 1 → goodInProgressB (env j) = true)
    (hfail : perceptionOkB (env (k - 1)) = false) :
    statusAbs (runAgent dev describe env N).status = SpecStatus.FailedPerception ∧
    (runAgent dev describe env N).status = "Unknown" ∧
    (runAgent dev describe env N).state.run_log.length = k - 1 ∧
    (runAgent dev describe env N).state.action_history.length = k - 1 ∧
    (runAgent dev describe env N).events.count Event.oracleCall = k - 1 ∧
    (1 ≤ k - 1 → (runAgent dev describe env N).report =
      some ((runAgent dev describe env N).state.run_log, "Unknown")) := by
  obtain ⟨evs, st', hrun, c1, c2, l1, l2⟩ :=
    runAux_good_seg dev describe env (k - 1) N 0 ⟨[], [], []⟩ (by omega)
      (fun j hj => by simpa using hgood j hj)
  obtain ⟨f, hf⟩ : ∃ f, N - (k - 1) = f + 1 := ⟨N - k, by omega⟩
  have hiter : iterStep dev describe (env (k - 1)) st' (k - 1) =
      ([Event.screenshotCall, Event.xmlCall], IterResult.perceptionFail) :=
    iterStep_perception_fail dev describe (env (k - 1)) st' (k - 1) hfail
  have hzero : (0 : Nat) + (k - 1) = k - 1 := by omega
  rw [hzero, hf] at hrun
  rw [runAux_succ_perception_fail dev describe env f (k - 1) st'
    [Event.screenshotCall, Event.xmlCall] hiter] at hrun
  have hlen : st'.run_log.length = k - 1 := by simpa using l2
  have hlen2 : st'.action_history.length = k - 1 := by simpa using l1
  have hstat : (runAgent dev describe env N).status = "Unknown" := by
    show (runAux dev describe env N 0 ⟨[], [], []⟩).status = "Unknown"
    rw [hrun]
  have hstate : (runAgent dev describe env N).state = st' := by
    show (runAux dev describe env N 0 ⟨[], [], []⟩).state = st'
    rw [hrun]
  have hev : (runAgent dev describe env N).events =
      evs ++ [Event.screenshotCall, Event.xmlCall] := by
    show (runAux dev describe env N 0 ⟨[], [], []⟩).events = _
    rw [hrun]
  refine ⟨?_, hstat, ?_, ?_, ?_, ?_⟩
  · rw [hstat]; decide
  · rw [hstate]; exact hlen
  · rw [hstate]; exact hlen2
  · rw [hev, List.count_append, c1]
    have h0 : List.count Event.oracleCall [Event.screenshotCall, Event.xmlCall] = 0 := by
      decide
    rw [h0]
    omega
  · intro hk1
    have hne : st'.run_log.isEmpty = false := by
      rw [Bool.eq_false_iff]
      intro hE
      rw [List.isEmpty_iff] at hE
      rw [hE] at hlen
      simp at hlen
      omega
    have hrep : (runAgent dev describe env N).report =
        if st'.run_log.isEmpty then none else some (st'.run_log, "Unknown") := by
      show (if (runAux dev describe env N 0 ⟨[], [], []⟩).state.run_log.isEmpty
          then none
          else some ((runAux dev describe env N 0 ⟨[], [], []⟩).state.run_log,
            (runAux dev describe env N 0 ⟨[], [], []⟩).status)) = _
      rw [hrun]
    rw [hrep, hstate, hne]
    simp

/-- C1 witness: the spec's scenario — perception fails on step 3 of a
15-step budget; the status is FailedPerception, the run log has 2 records
and the report is built from them. -/
theorem perception_failure_terminates_witness :
    statusAbs (runAgent devW (fun b => b) envPercW 15).status =
        SpecStatus.FailedPerception ∧
      (runAgent devW (fun b => b) envPercW 15).status = "Unknown" ∧
      (runAgent devW (fun b => b) envPercW 15).state.run_log.length = 2 ∧
      (runAgent devW (fun b => b) envPercW 15).state.action_history.length = 2 ∧
      (runAgent devW (fun b => b) envPercW 15).events.count Event.oracleCall = 2 ∧
      (1 ≤ 2 → (runAgent devW (fun b => b) envPercW 15).report =
        some ((runAgent devW (fun b => b) envPercW 15).state.run_log, "Unknown")) :=
  perception_failure_terminates devW (fun b => b) envPercW 15 3 (by omega) (by omega)
    (by
      intro j hj
      have : j = 0 ∨ j = 1 := by omega
      rcases this with h | h <;> subst h <;> decide)
    (by decide)

/-! ## Claim C4: oracle failure consumes the step without any mutation -/

/-- C4.  An iteration whose perception succeeded but whose oracle response
is unavailable or malformed ends in `skip`: the rest of the run continues
from the very same state `st` (no RunLog entry, no ActionHistory or
ScreenHistory mutation) at index `i + 1` with one unit of budget consumed. -/
theorem oracle_failure_consumes_step (dev : Device) (describe : String → String)
    (env : Nat → StepEnv) (fuel i : Nat) (st : LoopState)
    (hp : perceptionOkB (env i) = true)
    (ho : (env i).oracle = OracleResult.unavailable ∨
      (env i).oracle = OracleResult.malformed) :
    (iterStep dev describe (env i) st i).2 = IterResult.skip ∧
    runAux dev describe env (fuel + 1) i st =
      ⟨(iterStep dev describe (env i) st i).1 ++
          (runAux dev describe env fuel (i + 1) st).events,
        (runAux dev describe env fuel (i + 1) st).state,
        (runAux dev describe env fuel (i + 1) st).status⟩ := by
  obtain ⟨evs, h, _, _⟩ := iterStep_skip dev describe (env i) st i hp ho
  refine ⟨by rw [h], ?_⟩
  rw [runAux_succ_skip dev describe env fuel i st evs h, h]

/-- C4 witness: a malformed response at step 0 skips with the state intact. -/
theorem oracle_failure_consumes_step_witness :
    (iterStep devW (fun b => b) (envMalW 0) ⟨[], [], []⟩ 0).2 = IterResult.skip ∧
      runAux devW (fun b => b) envMalW (0 + 1) 0 ⟨[], [], []⟩ =
        ⟨(iterStep devW (fun b => b) (envMalW 0) ⟨[], [], []⟩ 0).1 ++
            (runAux devW (fun b => b) envMalW 0 (0 + 1) ⟨[], [], []⟩).events,
          (runAux devW (fun b => b) envMalW 0 (0 + 1) ⟨[], [], []⟩).state,
          (runAux devW (fun b => b) envMalW 0 (0 + 1) ⟨[], [], []⟩).status⟩ :=
  oracle_failure_consumes_step devW (fun b => b) envMalW 0 0 ⟨[], [], []⟩ (by decide)
    (Or.inr rfl)

/-! ## Claim C9: unrecognized decision status -/

/-- C9.  A decoded decision whose status is neither `"IN_PROGRESS"` nor
`"COMPLETE"` (including a missing status) dispatches nothing — no device
call at all — yet the fixed outcome `"No action taken."` is appended to
ActionHistory, to ScreenHistory at the screen's fingerprint, and to the
RunLog, and the loop continues into the next iteration (it neither treats
the response as malformed nor terminates). -/
theorem unrecognized_status_noop (dev : Device) (describe : String → String)
    (env : Nat → StepEnv) (fuel i : Nat) (st : LoopState) (d : AnalysisData)
    (hp : perceptionOkB (env i) = true)
    (ho : (env i).oracle = OracleResult.ok d)
    (h1 : d.status ≠ some "IN_PROGRESS") (h2 : d.status ≠ some "COMPLETE") :
    ∃ evs st',
      iterStep dev describe (env i) st i = (evs, IterResult.normal st') ∧
      st'.action_history = st.action_history ++ ["No action taken."] ∧
      st'.screen_history =
        shRecord st.screen_history (normalize ((env i).xml.getD "")) "No action taken." ∧
      (∃ r, st'.run_log = st.run_log ++ [r] ∧ r.action = "No action taken.") ∧
      (∀ ev ∈ evs, ev.isDeviceCall = false) ∧
      runAux dev describe env (fuel + 1) i st =
        ⟨evs ++ (runAux dev describe env fuel (i + 1) st').events,
          (runAux dev describe env fuel (i + 1) st').state,
          (runAux dev describe env fuel (i + 1) st').status⟩ := by
  have hda : dispatchAction dev describe d = ("No action taken.", []) := by
    have hb : (d.status == some "IN_PROGRESS") = false := by simp [h1]
    simp [dispatchAction, hb]
  have hc : (d.status == some "COMPLETE") = false := by simp [h2]
  unfold perceptionOkB at hp
  rw [Bool.and_eq_true] at hp
  have hiter : iterStep dev describe (env i) st i =
      ([Event.screenshotCall, Event.xmlCall, Event.oracleCall, Event.sleepCall],
        IterResult.normal
          { action_history := st.action_history ++ ["No action taken."]
            screen_history := shRecord st.screen_history
              (normalize ((env i).xml.getD "")) "No action taken."
            run_log := st.run_log ++
              [{ step := i + 1, screenshot_path := (env i).screenshot.getD "",
                 reflection := d.reflection.getD "N/A",
                 thought := d.thought.getD "N/A",
                 action := "No action taken." }] }) := by
    simp [iterStep, hp.1, hp.2, ho, hda, hc]
  refine ⟨_, _, hiter, rfl, rfl, ⟨_, rfl, rfl⟩, by decide, ?_⟩
  exact runAux_succ_normal dev describe env fuel i st _ _ hiter

/-- C9 witness: a decision with status `"DONE"` at step 0. -/
theorem unrecognized_status_noop_witness :
    ∃ evs st',
      iterStep devW (fun b => b) (envOddW 0) ⟨[], [], []⟩ 0 =
        (evs, IterResult.normal st') ∧
      st'.action_history = [] ++ ["No action taken."] ∧
      st'.screen_history = shRecord [] (normalize ((envOddW 0).xml.getD ""))
        "No action taken." ∧
      (∃ r, st'.run_log = [] ++ [r] ∧ r.action = "No action taken.") ∧
      (∀ ev ∈ evs, ev.isDeviceCall = false) ∧
      runAux devW (fun b => b) envOddW (4 + 1) 0 ⟨[], [], []⟩ =
        ⟨evs ++ (runAux devW (fun b => b) envOddW 4 (0 + 1) st').events,
          (runAux devW (fun b => b) envOddW 4 (0 + 1) st').state,
          (runAux devW (fun b => b) envOddW 4 (0 + 1) st').status⟩ :=
  unrecognized_status_noop devW (fun b => b) envOddW 4 0 ⟨[], [], []⟩
    { status := some "DONE" } (by decide) rfl (by decide) (by decide)

/-! ## Claim C5: a COMPLETE decision ends the run -/

/-- C5.  If steps `1..k-1` are fully successful in-progress steps and step
`k` (with `k ≤ N`) decodes with status `"COMPLETE"`, then: no action is
dispatched on step `k` (the last run-log record holds the no-op outcome
`"No action taken."` and the step's events are only perceive + oracle —
the run's events end with the `k`-th oracle call, so no device dispatch and
no further oracle call follows it), the final status is `Successful`, and
the run log has length exactly `k`. -/
theorem complete_decision_succeeds (dev : Device) (describe : String → String)
    (env : Nat → StepEnv) (N k : Nat) (hk : 1 ≤ k) (hkN : k ≤ N)
    (hgood : ∀ j, j < k - 1 → goodInProgressB (env j) = true)
    (hcomp : completeStepB (env (k - 1)) = true) :
    (runAgent dev describe env N).status = "Successful" ∧
    statusAbs (runAgent dev describe env N).status = SpecStatus.Successful ∧
    (runAgent dev describe env N).state.run_log.length = k ∧
    (runAgent dev describe env N).events.count Event.oracleCall = k ∧
    (∃ r, (runAgent dev describe env N).state.run_log.getLast? = some r ∧
      r.action = "No action taken.") ∧
    (∃ evs, (runAgent dev describe env N).events =
      evs ++ [Event.screenshotCall, Event.xmlCall, Event.oracleCall] ∧
      evs.count Event.oracleCall = k - 1) := by
  obtain ⟨evs, st', hrun, c1, c2, l1, l2⟩ :=
    runAux_good_seg dev describe env (k - 1) N 0 ⟨[], [], []⟩ (by omega)
      (fun j hj => by simpa using hgood j hj)
  obtain ⟨f, hf⟩ : ∃ f, N - (k - 1) = f + 1 := ⟨N - k, by omega⟩
  unfold completeStepB perceptionOkB at hcomp
  rcases ho : (env (k - 1)).oracle with _ | _ | d
  · rw [ho] at hcomp; simp at hcomp
  · rw [ho] at hcomp; simp at hcomp
  · rw [ho] at hcomp
    rw [Bool.and_eq_true, Bool.and_eq_true] at hcomp
    obtain ⟨⟨h1, h2⟩, h3⟩ := hcomp
    rw [beq_iff_eq] at h3
    have hiter := iterStep_complete dev describe (env (k - 1)) st' (k - 1) d
      (by unfold perceptionOkB; rw [Bool.and_eq_true]; exact ⟨h1, h2⟩) ho h3
    have hzero : (0 : Nat) + (k - 1) = k - 1 := by omega
    rw [hzero, hf] at hrun
    rw [runAux_succ_completed dev describe env f (k - 1) st' _ _ hiter] at hrun
    have hlen : st'.run_log.length = k - 1 := by simpa using l2
    have hstat : (runAgent dev describe env N).status = "Successful" := by
      show (runAux dev describe env N 0 ⟨[], [], []⟩).status = _
      rw [hrun]
    have hstate : (runAgent dev describe env N).state =
        { action_history := st'.action_history ++ ["No action taken."]
          screen_history := shRecord st'.screen_history
            (normalize ((env (k - 1)).xml.getD "")) "No action taken."
          run_log := st'.run_log ++
            [{ step := k - 1 + 1, screenshot_path := (env (k - 1)).screenshot.getD "",
               reflection := d.reflection.getD "N/A",
               thought := d.thought.getD "N/A",
               action := "No action taken." }] } := by
      show (runAux dev describe env N 0 ⟨[], [], []⟩).state = _
      rw [hrun]
    have hev : (runAgent dev describe env N).events =
        evs ++ [Event.screenshotCall, Event.xmlCall, Event.oracleCall] := by
      show (runAux dev describe env N 0 ⟨[], [], []⟩).events = _
      rw [hrun]
    refine ⟨hstat, by rw [hstat]; decide, ?_, ?_, ?_, evs, hev, c1⟩
    · rw [hstate]
      simp [hlen]
      omega
    · rw [hev, List.count_append, c1]
      have h0 : List.count Event.oracleCall
          [Event.screenshotCall, Event.xmlCall, Event.oracleCall] = 1 := by decide
      rw [h0]
      omega
    · rw [hstate]
      exact ⟨_, List.getLast?_concat _, rfl⟩

/-- C5 witness: COMPLETE on iteration 2 of a 5-step budget gives status
Successful, 2 run-log records, 2 oracle calls, and a trailing no-op. -/
theorem complete_decision_succeeds_witness :
    (runAgent devW (fun b => b) envComplW 5).status = "Successful" ∧
      statusAbs (runAgent devW (fun b => b) envComplW 5).status =
        SpecStatus.Successful ∧
      (runAgent devW (fun b => b) envComplW 5).state.run_log.length = 2 ∧
      (runAgent devW (fun b => b) envComplW 5).events.count Event.oracleCall = 2 ∧
      (∃ r, (runAgent devW (fun b => b) envComplW 5).state.run_log.getLast? = some r ∧
        r.action = "No action taken.") ∧
      (∃ evs, (runAgent devW (fun b => b) envComplW 5).events =
        evs ++ [Event.screenshotCall, Event.xmlCall, Event.oracleCall] ∧
        evs.count Event.oracleCall = 1) :=
  complete_decision_succeeds devW (fun b => b) envComplW 5 2 (by omega) (by omega)
    (by
      intro j hj
      have : j = 0 := by omega
      subst this
      decide)
    (by decide)

/-! ## Claim C6: the step budget bounds the loop -/

/-- Every iteration takes exactly one screenshot. -/
theorem runAux_screenshot_le (dev : Device) (describe : String → String)
    (env : Nat → StepEnv) :
    ∀ (fuel i : Nat) (st : LoopState),
      (runAux dev describe env fuel i st).events.count Event.screenshotCall ≤ fuel := by
  intro fuel
  induction fuel with
  | zero => intro i st; simp [runAux]
  | succ f ih =>
    intro i st
    have hcnt := iterStep_screenshot_count dev describe (env i) st i
    rcases hp : iterStep dev describe (env i) st i with ⟨evs, r⟩
    rw [hp] at hcnt
    simp only at hcnt
    rcases r with _ | _ | st' | st'
    · rw [runAux_succ_perception_fail dev describe env f i st evs hp]
      simp only
      omega
    · rw [runAux_succ_skip dev describe env f i st evs hp]
      simp only
      rw [List.count_append, hcnt]
      have := ih (i + 1) st
      omega
    · rw [runAux_succ_completed dev describe env f i st evs st' hp]
      simp only
      omega
    · rw [runAux_succ_normal dev describe env f i st evs st' hp]
      simp only
      rw [List.count_append, hcnt]
      have := ih (i + 1) st'
      omega

/-- C6.  The loop body executes at most `maxSteps` iterations — one
screenshot is taken per iteration, and a run contains at most `maxSteps`
of them — whatever mix of oracle failures and real actions occurred; and
when all `maxSteps` iterations are fully-successful in-progress steps, the
budget is exhausted, the final status is `FailedMaxSteps` (the code's
`"Failed (Max steps reached)"`), and the run log has length `maxSteps`. -/
theorem step_budget_bound (dev : Device) (describe : String → String)
    (env : Nat → StepEnv) (N : Nat) :
    (runAgent dev describe env N).events.count Event.screenshotCall ≤ N ∧
    ((∀ j, j < N → goodInProgressB (env j) = true) →
      (runAgent dev describe env N).status = "Failed (Max steps reached)" ∧
      statusAbs (runAgent dev describe env N).status = SpecStatus.FailedMaxSteps ∧
      (runAgent dev describe env N).state.run_log.length = N) := by
  constructor
  · show (runAux dev describe env N 0 ⟨[], [], []⟩).events.count Event.screenshotCall ≤ N
    exact runAux_screenshot_le dev describe env N 0 ⟨[], [], []⟩
  · intro hall
    obtain ⟨evs, st', hrun, c1, c2, l1, l2⟩ :=
      runAux_good_seg dev describe env N N 0 ⟨[], [], []⟩ le_rfl
        (fun j hj => by simpa using hall j hj)
    have hz : N - N = 0 := by omega
    rw [hz] at hrun
    simp only [runAux] at hrun
    have hstat : (runAgent dev describe env N).status = "Failed (Max steps reached)" := by
      show (runAux dev describe env N 0 ⟨[], [], []⟩).status = _
      rw [hrun]
    have hstate : (runAgent dev describe env N).state = st' := by
      show (runAux dev describe env N 0 ⟨[], [], []⟩).state = st'
      rw [hrun]
    refine ⟨hstat, by rw [hstat]; decide, ?_⟩
    rw [hstate]
    simpa using l2

/-- C6 witness: a 3-step budget of in-progress steps ends in
FailedMaxSteps with 3 records and at most 3 screenshots. -/
theorem step_budget_bound_witness :
    (runAgent devW (fun b => b) (fun _ => goodEnvW) 3).events.count
        Event.screenshotCall ≤ 3 ∧
      (runAgent devW (fun b => b) (fun _ => goodEnvW) 3).status =
        "Failed (Max steps reached)" ∧
      statusAbs (runAgent devW (fun b => b) (fun _ => goodEnvW) 3).status =
        SpecStatus.FailedMaxSteps ∧
      (runAgent devW (fun b => b) (fun _ => goodEnvW) 3).state.run_log.length = 3 :=
  ⟨(step_budget_bound devW (fun b => b) (fun _ => goodEnvW) 3).1,
    (step_budget_bound devW (fun b => b) (fun _ => goodEnvW) 3).2
      (fun j hj => by decide)⟩

/-! ## Claim C8: token lemmas for the normalizer -/

theorem length_dropWhile_le (p : Char → Bool) :
    ∀ l : List Char, (l.dropWhile p).length ≤ l.length := by
  intro l
  induction l with
  | nil => simp
  | cons a l ih =>
    by_cases ha : p a
    · rw [List.dropWhile_cons, if_pos ha]
      simp
      omega
    · rw [List.dropWhile_cons, if_neg ha]

theorem tokens_cons_ne_nil (c : Char) (rest : List Char) : tokens (c :: rest) ≠ [] := by
  rw [tokens]
  by_cases hc : c.isDigit
  · simp only [hc, if_true]
    rcases tokens rest with _ | ⟨t, ts⟩
    · simp
    · rcases t with c' | _ <;> simp
  · simp [hc]

theorem tokens_nil_iff (l : List Char) : tokens l = [] ↔ l = [] := by
  constructor
  · intro h
    cases l with
    | nil => rfl
    | cons c rest => exact absurd h (tokens_cons_ne_nil c rest)
  · rintro rfl
    rfl

theorem tokens_cons_nondigit (c : Char) (l : List Char) (h : c.isDigit = false) :
    tokens (c :: l) = Tok.ch c :: tokens l := by
  simp [tokens, h]

theorem tokens_cons_digit :
    ∀ (l : List Char) (c : Char), c.isDigit = true →
      tokens (c :: l) = Tok.num :: tokens (l.dropWhile Char.isDigit) := by
  intro l
  induction l with
  | nil =>
    intro c hc
    simp [tokens, hc]
  | cons d l' ih =>
    intro c hc
    by_cases hd : d.isDigit
    · rw [tokens]
      simp only [hc, if_true]
      rw [ih d hd, List.dropWhile_cons, if_pos hd]
    · have hd' : d.isDigit = false := eq_false_of_ne_true hd
      rw [tokens]
      simp only [hc, if_true]
      rw [tokens_cons_nondigit d l' hd', List.dropWhile_cons, if_neg hd,
        tokens_cons_nondigit d l' hd']

theorem head_digit_of_tokens_num {l : List Char} {ts : List Tok}
    (h : tokens l = Tok.num :: ts) : ∃ c r, l = c :: r ∧ c.isDigit = true := by
  cases l with
  | nil => simp [tokens] at h
  | cons c r =>
    by_cases hc : c.isDigit
    · exact ⟨c, r, rfl, hc⟩
    · rw [tokens_cons_nondigit c r (eq_false_of_ne_true hc)] at h
      simp at h

theorem tokens_ch_inv {l : List Char} {a : Char} {ts : List Tok}
    (h : tokens l = Tok.ch a :: ts) :
    ∃ r, l = a :: r ∧ a.isDigit = false ∧ tokens r = ts := by
  cases l with
  | nil => simp [tokens] at h
  | cons c r =>
    by_cases hc : c.isDigit
    · rw [tokens_cons_digit r c hc] at h
      simp at h
    · have hc' : c.isDigit = false := eq_false_of_ne_true hc
      rw [tokens_cons_nondigit c r hc', List.cons.injEq, Tok.ch.injEq] at h
      obtain ⟨rfl, hts⟩ := h
      exact ⟨r, rfl, hc', hts⟩

/-! ## Claim C8: length facts and fuel stability of the bounds scanner -/

theorem matchLit_length :
    ∀ (pre l r : List Char), matchLit pre l = some r → r.length + pre.length = l.length := by
  intro pre
  induction pre with
  | nil =>
    intro l r h
    simp [matchLit] at h
    subst h
    simp
  | cons c cs ih =>
    intro l r h
    cases l with
    | nil => cases h
    | cons a l' =>
      rw [matchLit] at h
      by_cases hac : a = c
      · rw [if_pos hac] at h
        have := ih l' r h
        simp
        omega
      · rw [if_neg hac] at h
        cases h

theorem matchDigits1_length {l r : List Char} (h : matchDigits1 l = some r) :
    r.length < l.length := by
  cases l with
  | nil => cases h
  | cons c rest =>
    rw [matchDigits1] at h
    by_cases hc : c.isDigit
    · rw [if_pos hc] at h
      injection h with h
      subst h
      have := length_dropWhile_le Char.isDigit rest
      simp
      omega
    · rw [if_neg hc] at h
      cases h

theorem matchBounds_length {l r : List Char} (h : matchBounds l = some r) :
    r.length < l.length := by
  unfold matchBounds at h
  rcases h1 : matchLit boundsPat l with _ | l1 <;> rw [h1] at h
  · simp at h
  simp only [Option.some_bind] at h
  rcases h2 : matchDigits1 l1 with _ | l2 <;> rw [h2] at h
  · simp at h
  simp only [Option.some_bind] at h
  rcases h3 : matchLit [','] l2 with _ | l3 <;> rw [h3] at h
  · simp at h
  simp only [Option.some_bind] at h
  rcases h4 : matchDigits1 l3 with _ | l4 <;> rw [h4] at h
  · simp at h
  simp only [Option.some_bind] at h
  rcases h5 : matchLit [']', '['] l4 with _ | l5 <;> rw [h5] at h
  · simp at h
  simp only [Option.some_bind] at h
  rcases h6 : matchDigits1 l5 with _ | l6 <;> rw [h6] at h
  · simp at h
  simp only [Option.some_bind] at h
  rcases h7 : matchLit [','] l6 with _ | l7 <;> rw [h7] at h
  · simp at h
  simp only [Option.some_bind] at h
  rcases h8 : matchDigits1 l7 with _ | l8 <;> rw [h8] at h
  · simp at h
  simp only [Option.some_bind] at h
  have e1 := matchLit_length _ _ _ h1
  have e2 := matchDigits1_length h2
  have e3 := matchLit_length _ _ _ h3
  have e4 := matchDigits1_length h4
  have e5 := matchLit_length _ _ _ h5
  have e6 := matchDigits1_length h6
  have e7 := matchLit_length _ _ _ h7
  have e8 := matchDigits1_length h8
  have e9 := matchLit_length _ _ _ h
  simp [boundsPat] at e1
  simp at e3 e5 e7 e9
  omega

theorem stripBoundsGo_fuel :
    ∀ (f g : Nat) (l : List Char), l.length ≤ f → l.length ≤ g →
      stripBoundsGo f l = stripBoundsGo g l := by
  intro f
  induction f with
  | zero =>
    intro g l hf _
    have : l = [] := by
      cases l with
      | nil => rfl
      | cons a r => simp at hf
    subst this
    cases g <;> rfl
  | succ f ih =>
    intro g l hf hg
    cases l with
    | nil => cases g <;> rfl
    | cons c rest =>
      obtain ⟨g', rfl⟩ : ∃ g', g = g' + 1 := by
        cases g with
        | zero => simp at hg
        | succ g' => exact ⟨g', rfl⟩
      rw [stripBoundsGo, stripBoundsGo]
      rcases hm : matchBounds (c :: rest) with _ | r'
      · dsimp only
        have : rest.length ≤ f := by simp at hf; omega
        have hg' : rest.length ≤ g' := by simp at hg; omega
        rw [ih g' rest this hg']
      · dsimp only
        have hr := matchBounds_length hm
        have hrf : r'.length ≤ f := by simp at hf hr ⊢; omega
        have hrg : r'.length ≤ g' := by simp at hg hr ⊢; omega
        rw [ih g' r' hrf hrg]

theorem stripBounds_cons_match {c : Char} {r r' : List Char}
    (h : matchBounds (c :: r) = some r') :
    stripBoundsAttrs (c :: r) = stripBoundsAttrs r' := by
  unfold stripBoundsAttrs
  have hr := matchBounds_length h
  have hlen : (c :: r).length = r.length + 1 := by simp
  rw [hlen, stripBoundsGo, h]
  exact stripBoundsGo_fuel r.length r'.length r' (by simp at hr; omega) le_rfl

theorem stripBounds_cons_nomatch {c : Char} {r : List Char}
    (h : matchBounds (c :: r) = none) :
    stripBoundsAttrs (c :: r) = c :: stripBoundsAttrs r := by
  unfold stripBoundsAttrs
  have hlen : (c :: r).length = r.length + 1 := by simp
  rw [hlen, stripBoundsGo, h]

theorem matchBounds_cons_digit {c : Char} {l : List Char} (hc : c.isDigit = true) :
    matchBounds (c :: l) = none := by
  have hcb : ¬(c = 'b') := by
    intro h
    rw [h] at hc
    exact absurd hc (by decide)
  simp [matchBounds, boundsPat, matchLit, hcb]

theorem stripBounds_digit_run :
    ∀ (run s : List Char), (∀ c ∈ run, c.isDigit = true) →
      stripBoundsAttrs (run ++ s) = run ++ stripBoundsAttrs s := by
  intro run
  induction run with
  | nil => intro s _; simp
  | cons c run' ih =>
    intro s hall
    have hc : c.isDigit = true := hall c (by simp)
    rw [List.cons_append,
      stripBounds_cons_nomatch (matchBounds_cons_digit hc),
      ih s (fun x hx => hall x (by simp [hx]))]
    simp

theorem eraseDigits_append (a b : List Char) :
    eraseDigits (a ++ b) = eraseDigits a ++ eraseDigits b :=
  List.filter_append a b

theorem eraseDigits_digit_run {run : List Char} (h : ∀ c ∈ run, c.isDigit = true) :
    eraseDigits run = [] := by
  rw [eraseDigits, List.filter_eq_nil_iff]
  intro a ha
  rw [h a ha]
  decide

theorem eraseDigits_cons_nondigit {c : Char} (l : List Char) (h : c.isDigit = false) :
    eraseDigits (c :: l) = c :: eraseDigits l := by
  simp [eraseDigits, h]

/-! ## Claim C8: matcher correspondence under token equality -/

theorem TEq_bind {f g : List Char → Option (List Char)}
    (hf : TEq f) (hg : TEq g) : TEq (fun l => (f l).bind g) := by
  intro l1 l2 h
  dsimp only
  rcases hf l1 l2 h with ⟨h1, h2⟩ | ⟨r1, r2, h1, h2, hr⟩
  · left
    rw [h1, h2]
    exact ⟨rfl, rfl⟩
  · rcases hg r1 r2 hr with ⟨g1, g2⟩ | ⟨s1, s2, g1, g2, hs⟩
    · left
      rw [h1, h2]
      simp [g1, g2]
    · right
      exact ⟨s1, s2, by rw [h1]; simpa using g1, by rw [h2]; simpa using g2, hs⟩

theorem TEq_matchDigits1 : TEq matchDigits1 := by
  intro l1 l2 h
  cases l1 with
  | nil =>
    have h2 : l2 = [] := (tokens_nil_iff l2).mp h.symm
    subst h2
    left
    exact ⟨rfl, rfl⟩
  | cons c r1 =>
    by_cases hc : c.isDigit
    · rw [tokens_cons_digit r1 c hc] at h
      obtain ⟨e, r2, rfl, he⟩ := head_digit_of_tokens_num h.symm
      rw [tokens_cons_digit r2 e he] at h
      right
      refine ⟨r1.dropWhile Char.isDigit, r2.dropWhile Char.isDigit,
        by simp [matchDigits1, hc], by simp [matchDigits1, he], ?_⟩
      injection h
    · have hc' : c.isDigit = false := eq_false_of_ne_true hc
      rw [tokens_cons_nondigit c r1 hc'] at h
      obtain ⟨r2, rfl, ha, _⟩ := tokens_ch_inv h.symm
      left
      exact ⟨by simp [matchDigits1, hc'], by simp [matchDigits1, ha]⟩

theorem TEq_matchLit :
    ∀ lit : List Char, (∀ c ∈ lit, c.isDigit = false) → TEq (matchLit lit) := by
  intro lit
  induction lit with
  | nil =>
    intro _ l1 l2 h
    right
    exact ⟨l1, l2, rfl, rfl, h⟩
  | cons c cs ih =>
    intro hlit l1 l2 h
    have hcnd : c.isDigit = false := hlit c (by simp)
    cases l1 with
    | nil =>
      have h2 : l2 = [] := (tokens_nil_iff l2).mp h.symm
      subst h2
      left
      exact ⟨rfl, rfl⟩
    | cons a r1 =>
      by_cases ha : a.isDigit
      · rw [tokens_cons_digit r1 a ha] at h
        obtain ⟨e, r2, rfl, he⟩ := head_digit_of_tokens_num h.symm
        have hac : ¬(a = c) := by
          intro hh
          rw [hh, hcnd] at ha
          cases ha
        have hec : ¬(e = c) := by
          intro hh
          rw [hh, hcnd] at he
          cases he
        left
        exact ⟨by simp [matchLit, hac], by simp [matchLit, hec]⟩
      · have ha' : a.isDigit = false := eq_false_of_ne_true ha
        rw [tokens_cons_nondigit a r1 ha'] at h
        obtain ⟨r2, rfl, _, ht⟩ := tokens_ch_inv h.symm
        by_cases hac : a = c
        · subst hac
          rcases ih (fun x hx => hlit x (by simp [hx])) r1 r2 ht.symm with
            ⟨h1, h2⟩ | ⟨s1, s2, h1, h2, hs⟩
          · left
            exact ⟨by simp [matchLit, h1], by simp [matchLit, h2]⟩
          · right
            exact ⟨s1, s2, by simp [matchLit, h1], by simp [matchLit, h2], hs⟩
        · left
          exact ⟨by simp [matchLit, hac], by simp [matchLit, hac]⟩

theorem TEq_matchBounds : TEq matchBounds := by
  have hb : TEq (matchLit boundsPat) := TEq_matchLit boundsPat (by decide)
  have hcm : TEq (matchLit [',']) := TEq_matchLit [','] (by decide)
  have hbr : TEq (matchLit [']', '[']) := TEq_matchLit [']', '['] (by decide)
  have hcl : TEq (matchLit [']', '"']) := TEq_matchLit [']', '"'] (by decide)
  have hd : TEq matchDigits1 := TEq_matchDigits1
  exact TEq_bind hb (TEq_bind hd (TEq_bind hcm (TEq_bind hd (TEq_bind hbr
    (TEq_bind hd (TEq_bind hcm (TEq_bind hd hcl)))))))

/-! ## Claim C8: the main invariance -/

/-- The composition of the two `re.sub` passes depends only on the token
list of the input: strings with equal digit-skeletons normalize alike. -/
theorem strip_erase_tokens_eq :
    ∀ (N : Nat) (l1 l2 : List Char), l1.length + l2.length ≤ N →
      tokens l1 = tokens l2 →
      eraseDigits (stripBoundsAttrs l1) = eraseDigits (stripBoundsAttrs l2) := by
  intro N
  induction N with
  | zero =>
    intro l1 l2 hN h
    have h1 : l1 = [] := by
      cases l1 with
      | nil => rfl
      | cons a r => simp at hN
    have h2 : l2 = [] := by
      cases l2 with
      | nil => rfl
      | cons a r => simp at hN
    rw [h1, h2]
  | succ n ih =>
    intro l1 l2 hN h
    cases l1 with
    | nil =>
      have h2 : l2 = [] := (tokens_nil_iff l2).mp h.symm
      rw [h2]
    | cons c r1 =>
      by_cases hc : c.isDigit
      · rw [tokens_cons_digit r1 c hc] at h
        obtain ⟨e, r2, rfl, he⟩ := head_digit_of_tokens_num h.symm
        rw [tokens_cons_digit r2 e he] at h
        have htail : tokens (r1.dropWhile Char.isDigit) =
            tokens (r2.dropWhile Char.isDigit) := by injection h
        have key : ∀ (a : Char) (r : List Char), a.isDigit = true →
            eraseDigits (stripBoundsAttrs (a :: r)) =
              eraseDigits (stripBoundsAttrs (r.dropWhile Char.isDigit)) := by
          intro a r haD
          have hdec : (a :: r).takeWhile Char.isDigit ++ (a :: r).dropWhile Char.isDigit
              = a :: r := List.takeWhile_append_dropWhile Char.isDigit (a :: r)
          have hrun : ∀ x ∈ (a :: r).takeWhile Char.isDigit, x.isDigit = true :=
            fun x hx => List.mem_takeWhile_imp hx
          have hs : (a :: r).dropWhile Char.isDigit = r.dropWhile Char.isDigit := by
            rw [List.dropWhile_cons, if_pos haD]
          calc eraseDigits (stripBoundsAttrs (a :: r))
              = eraseDigits (stripBoundsAttrs ((a :: r).takeWhile Char.isDigit ++
                  (a :: r).dropWhile Char.isDigit)) := by rw [hdec]
            _ = eraseDigits ((a :: r).takeWhile Char.isDigit ++
                  stripBoundsAttrs ((a :: r).dropWhile Char.isDigit)) := by
                rw [stripBounds_digit_run _ _ hrun]
            _ = eraseDigits (stripBoundsAttrs (r.dropWhile Char.isDigit)) := by
                rw [eraseDigits_append, eraseDigits_digit_run hrun, hs]
                simp
        rw [key c r1 hc, key e r2 he]
        refine ih _ _ ?_ htail
        have d1 := length_dropWhile_le Char.isDigit r1
        have d2 := length_dropWhile_le Char.isDigit r2
        simp at hN
        omega
      · have hc' : c.isDigit = false := eq_false_of_ne_true hc
        rw [tokens_cons_nondigit c r1 hc'] at h
        obtain ⟨r2, rfl, _, ht⟩ := tokens_ch_inv h.symm
        have hfull : tokens (c :: r1) = tokens (c :: r2) := by
          rw [tokens_cons_nondigit c r1 hc', tokens_cons_nondigit c r2 hc', ht]
        rcases TEq_matchBounds (c :: r1) (c :: r2) hfull with
          ⟨h1, h2⟩ | ⟨s1, s2, h1, h2, hs⟩
        · rw [stripBounds_cons_nomatch h1, stripBounds_cons_nomatch h2,
            eraseDigits_cons_nondigit _ hc', eraseDigits_cons_nondigit _ hc']
          have : eraseDigits (stripBoundsAttrs r1) = eraseDigits (stripBoundsAttrs r2) := by
            refine ih r1 r2 ?_ ht.symm
            simp at hN
            omega
          rw [this]
        · rw [stripBounds_cons_match h1, stripBounds_cons_match h2]
          have hl1 := matchBounds_length h1
          have hl2 := matchBounds_length h2
          refine ih s1 s2 ?_ hs
          simp at hN hl1 hl2
          omega

/-- C8.  Normalization (lines 352-353) is a pure function of the raw
description, and is coordinate- and digit-invariant: raw descriptions that
are identical except for the digit characters — the same non-digit text
with (nonempty) runs of digits at the same places, whether inside bounds
attributes or anywhere else — have equal token lists, and any two raw
descriptions with equal token lists produce the same fingerprint. -/
theorem normalize_digit_invariant (s1 s2 : String)
    (h : tokens s1.toList = tokens s2.toList) : normalize s1 = normalize s2 := by
  unfold normalize
  rw [strip_erase_tokens_eq (s1.toList.length + s2.toList.length) s1.toList s2.toList
    le_rfl h]

/-- C8 witness: two screen descriptions differing only in bounds
coordinates and in another numeric text fingerprint identically. -/
theorem normalize_digit_invariant_witness :
    normalize "<node bounds=\"[0,0][1080,1920]\" text=\"Item 12\"/>" =
      normalize "<node bounds=\"[13,37][444,555]\" text=\"Item 9\"/>" :=
  normalize_digit_invariant _ _ (by decide)

end Agent
